import Mathlib

/-!
# Verification of the HGNC lookup-cache core

A shallow embedding of the cache construction, persistence and query
subsystem of the `hgnc_lookup` crate (`src/lib.rs`,
`src/hgnc_cache_functions.rs`), together with proofs of the specified
properties.

Rust strings are modelled as `List Char` (called `Str` below); the
standard-library string operations used by the code (`split`, `trim`,
`to_uppercase`, `to_lowercase`) are given structural definitions with the
same observable behaviour (restricted to the ASCII letters that matter
for case conversion).  The `HashMap` is modelled as an association list
where a later insertion shadows earlier entries, which realises exactly
the map's insert-overwrite (last-write-wins) semantics.
-/

namespace HgncLookup

/-- Rust `String` / `&str`, modelled as its character sequence. -/
abbrev Str := List Char

/-- Coerce a Lean string literal to the model type. -/
def str (s : String) : Str := s.data

/-- Rust `char::to_uppercase` (ASCII range, as exercised by the data):
character-wise uppercasing. -/
def upper (s : Str) : Str := s.map Char.toUpper

/-- Rust `char::to_lowercase` (ASCII range): character-wise lowercasing. -/
def lower (s : Str) : Str := s.map Char.toLower

/-- Rust `str::split(sep)`: splits at every occurrence of `sep`, keeping
empty segments; an empty input yields the single segment `""`. -/
def split (sep : Char) : Str → List Str
  | [] => [[]]
  | c :: rest =>
    if c = sep then [] :: split sep rest
    else
      match split sep rest with
      | [] => [[c]]
      | s :: ss => (c :: s) :: ss

/-- Rust `str::trim`: drop leading and trailing whitespace. -/
def trim (s : Str) : Str :=
  ((s.dropWhile Char.isWhitespace).reverse.dropWhile Char.isWhitespace).reverse

/-- `std::collections::HashMap<String, usize>`, modelled as an association
list; `mapInsert` prepends, so the most recent insertion for a key wins,
exactly as `HashMap::insert` overwrites. -/
abbrev LookupMap := List (Str × Nat)

/-- `HashMap::insert` (observable behaviour: the new binding shadows any
older one for the same key). -/
def mapInsert (m : LookupMap) (k : Str) (v : Nat) : LookupMap := (k, v) :: m

/-- `HashMap::get`. -/
def mapGet : LookupMap → Str → Option Nat
  | [], _ => none
  | (k, v) :: rest, q => if k = q then some v else mapGet rest q

/-- Whether a key is present (`HashMap::contains_key`). -/
def mapHasKey (m : LookupMap) (q : Str) : Bool := (mapGet m q).isSome

/-- The record type `HgncRecord` (fields exactly as populated by
`create_hgnc_cache_from_reader` in `src/hgnc_cache_functions.rs`; the
struct declaration itself lives in the crate's `hgnc_struct` module). -/
structure HgncRecord where
  hgnc_id : Str
  symbol : Str
  name : Str
  locus_group : Str
  locus_type : Str
  status : Str
  location : Str
  location_sortable : Str
  alias_symbol : Str
  alias_name : Str
  prev_symbol : Str
  prev_name : Str
  gene_group : Str
  gene_group_id : Str
  date_approved_reserved : Str
  date_symbol_changed : Str
  date_name_changed : Str
  date_modified : Str
  entrez_id : Str
  ensembl_gene_id : Str
  vega_id : Str
  ucsc_id : Str
  ena : Str
  refseq_accession : Str
  ccds_id : Str
  uniprot_ids : Str
  pubmed_id : Str
  mgd_id : Str
  rgd_id : Str
  lsdb : Str
  cosmic : Str
  omim_id : Str
  mirbase : Str
  homeodb : Str
  snornabase : Str
  bioparadigms_slc : Str
  orphanet : Str
  pseudogene_org : Str
  horde_id : Str
  merops : Str
  imgt : Str
  iuphar : Str
  kznf_gene_catalog : Str
  mamit_trnadb : Str
  cd : Str
  lncrnadb : Str
  enzyme_id : Str
  intermediate_filament_db : Str
  rna_central_id : Str
  lncipedia : Str
  gtrnadb : Str
  agr : Str
  mane_select : Str
  gencc : Str
deriving DecidableEq, Repr

/-- The cache container `HgncCache`: record sequence plus derived index. -/
structure HgncCache where
  records : List HgncRecord
  lookup : LookupMap
deriving DecidableEq, Repr

/-- The `get_field` closure: `col_map.get(name).and_then(|&idx| fields.get(idx)).unwrap_or(&"")`. -/
def getField (colMap : LookupMap) (fields : List Str) (name : Str) : Str :=
  match mapGet colMap name with
  | some idx => (fields[idx]?).getD []
  | none => []

/-- Construction of the `HgncRecord` for one data row, field by field as in
the source. -/
def mkRecord (colMap : LookupMap) (fields : List Str) : HgncRecord where
  hgnc_id := getField colMap fields (str "hgnc_id")
  symbol := getField colMap fields (str "symbol")
  name := getField colMap fields (str "name")
  locus_group := getField colMap fields (str "locus_group")
  locus_type := getField colMap fields (str "locus_type")
  status := getField colMap fields (str "status")
  location := getField colMap fields (str "location")
  location_sortable := getField colMap fields (str "location_sortable")
  alias_symbol := getField colMap fields (str "alias_symbol")
  alias_name := getField colMap fields (str "alias_name")
  prev_symbol := getField colMap fields (str "prev_symbol")
  prev_name := getField colMap fields (str "prev_name")
  gene_group := getField colMap fields (str "gene_group")
  gene_group_id := getField colMap fields (str "gene_group_id")
  date_approved_reserved := getField colMap fields (str "date_approved_reserved")
  date_symbol_changed := getField colMap fields (str "date_symbol_changed")
  date_name_changed := getField colMap fields (str "date_name_changed")
  date_modified := getField colMap fields (str "date_modified")
  entrez_id := getField colMap fields (str "entrez_id")
  ensembl_gene_id := getField colMap fields (str "ensembl_gene_id")
  vega_id := getField colMap fields (str "vega_id")
  ucsc_id := getField colMap fields (str "ucsc_id")
  ena := getField colMap fields (str "ena")
  refseq_accession := getField colMap fields (str "refseq_accession")
  ccds_id := getField colMap fields (str "ccds_id")
  uniprot_ids := getField colMap fields (str "uniprot_ids")
  pubmed_id := getField colMap fields (str "pubmed_id")
  mgd_id := getField colMap fields (str "mgd_id")
  rgd_id := getField colMap fields (str "rgd_id")
  lsdb := getField colMap fields (str "lsdb")
  cosmic := getField colMap fields (str "cosmic")
  omim_id := getField colMap fields (str "omim_id")
  mirbase := getField colMap fields (str "mirbase")
  homeodb := getField colMap fields (str "homeodb")
  snornabase := getField colMap fields (str "snornabase")
  bioparadigms_slc := getField colMap fields (str "bioparadigms_slc")
  orphanet := getField colMap fields (str "orphanet")
  pseudogene_org := getField colMap fields (str "pseudogene.org")
  horde_id := getField colMap fields (str "horde_id")
  merops := getField colMap fields (str "merops")
  imgt := getField colMap fields (str "imgt")
  iuphar := getField colMap fields (str "iuphar")
  kznf_gene_catalog := getField colMap fields (str "kznf_gene_catalog")
  mamit_trnadb := getField colMap fields (str "mamit-trnadb")
  cd := getField colMap fields (str "cd")
  lncrnadb := getField colMap fields (str "lncrnadb")
  enzyme_id := getField colMap fields (str "enzyme_id")
  intermediate_filament_db := getField colMap fields (str "intermediate_filament_db")
  rna_central_id := getField colMap fields (str "rna_central_id")
  lncipedia := getField colMap fields (str "lncipedia")
  gtrnadb := getField colMap fields (str "gtrnadb")
  agr := getField colMap fields (str "agr")
  mane_select := getField colMap fields (str "mane_select")
  gencc := getField colMap fields (str "gencc")

/-- The alias-step keys of the index build: if `alias_symbol` is non-empty,
each segment of `split('|')` that is non-empty (before trimming) is
trimmed and uppercased. -/
def aliasKeys (r : HgncRecord) : List Str :=
  if r.alias_symbol = [] then []
  else ((split '|' r.alias_symbol).filter (fun s => s ≠ [])).map (fun a => upper (trim a))

/-- The previous-symbol-step keys, same shape as `aliasKeys`. -/
def prevKeys (r : HgncRecord) : List Str :=
  if r.prev_symbol = [] then []
  else ((split '|' r.prev_symbol).filter (fun s => s ≠ [])).map (fun p => upper (trim p))

/-- All index keys one record inserts, in insertion order: the uppercased
symbol, then the alias keys, then the previous-symbol keys. -/
def keysOfRecord (r : HgncRecord) : List Str :=
  upper r.symbol :: (aliasKeys r ++ prevKeys r)

/-- Insert every key of a list with the same value (the folds of the index
build). -/
def insertMany (m : LookupMap) (ks : List Str) (v : Nat) : LookupMap :=
  ks.foldl (fun acc k => mapInsert acc k v) m

/-- Processing of one data line of the loop body of
`create_hgnc_cache_from_reader`: build the record, insert its index keys
at the position it is about to occupy, push the record. -/
def processLine (colMap : LookupMap) (line : Str) (cache : HgncCache) : HgncCache :=
  let fields := split '\t' line
  let record := mkRecord colMap fields
  let record_idx := cache.records.length
  let l := insertMany cache.lookup (keysOfRecord record) record_idx
  { records := cache.records ++ [record], lookup := l }

/-- The data-line loop: `for line_result in lines { let line = line_result?; … }`. -/
def processLines (colMap : LookupMap) : List (Except Str Str) → HgncCache → Except Str HgncCache
  | [], cache => .ok cache
  | .error e :: _, _ => .error e
  | .ok line :: rest, cache => processLines colMap rest (processLine colMap line cache)

/-- The header-to-position map: `col_map.insert(*header, i)` for each header
in order (a duplicate header name keeps the later position). -/
def buildColMap (headers : List Str) : LookupMap :=
  (headers.enum).foldl (fun m p => mapInsert m p.2 p.1) []

/-- `create_hgnc_cache_from_reader`: the reader's `lines()` iterator is the
input list, each line either a read string or an I/O-level error. -/
def create_hgnc_cache_from_reader (input : List (Except Str Str)) : Except Str HgncCache :=
  match input with
  | [] => .error (str "File is empty")
  | .error e :: _ => .error e
  | .ok headerLine :: rest =>
    let headers := split '\t' headerLine
    let colMap := buildColMap headers
    processLines colMap rest { records := [], lookup := [] }

/-- Result of `query_lookup_table`: a record reference, the not-found error,
or a Rust panic (out-of-bounds index into `cache.records`). -/
inductive QueryResult
  | found (r : HgncRecord)
  | notFound (msg : Str)
  | panic
deriving DecidableEq, Repr

/-- `query_lookup_table` from `src/lib.rs`: uppercase the query, look it up,
index into the record sequence on a hit, build the not-found message on a
miss. -/
def query_lookup_table (query : Str) (cache : HgncCache) : QueryResult :=
  match mapGet cache.lookup (upper query) with
  | some idx =>
    match cache.records[idx]? with
    | some r => .found r
    | none => .panic
  | none => .notFound (str "Query '" ++ query ++ str "' not found in cache")

/-! ## Persistence codec

The binary codec is provided by the external `rkyv` crate, whose source is
not part of this repository.  Modelled from the spec: `serialize(container)
→ byte blob` with a deterministic layout that embeds internal layout
markers and preserves record order and all index entries exactly;
`deserialize(bytes)` succeeds on a well-formed blob and reports corruption
when the layout markers do not match.  Bytes are abstracted as `Nat`
tokens. -/

/-- Layout marker (format magic and version) the codec embeds at the front
of every archive. -/
def MAGIC : List Nat := [72, 71, 78, 67, 1]

/-- Length-prefixed string encoding. -/
def encodeStr (s : Str) : List Nat := s.length :: s.map Char.toNat

/-- Decode one length-prefixed string; fails on truncation. -/
def decodeStr : List Nat → Option (Str × List Nat)
  | [] => none
  | n :: rest =>
    if n ≤ rest.length then some ((rest.take n).map Char.ofNat, rest.drop n) else none

/-- Decode a fixed number of strings. -/
def decodeStrs : Nat → List Nat → Option (List Str × List Nat)
  | 0, bs => some ([], bs)
  | k + 1, bs =>
    match decodeStr bs with
    | none => none
    | some (s, rest) =>
      match decodeStrs k rest with
      | none => none
      | some (ss, rest2) => some (s :: ss, rest2)

/-- The 54 fields of a record, in declaration order. -/
def recordFields (r : HgncRecord) : List Str :=
  [r.hgnc_id, r.symbol, r.name, r.locus_group, r.locus_type, r.status,
   r.location, r.location_sortable, r.alias_symbol, r.alias_name,
   r.prev_symbol, r.prev_name, r.gene_group, r.gene_group_id,
   r.date_approved_reserved, r.date_symbol_changed, r.date_name_changed,
   r.date_modified, r.entrez_id, r.ensembl_gene_id, r.vega_id, r.ucsc_id,
   r.ena, r.refseq_accession, r.ccds_id, r.uniprot_ids, r.pubmed_id,
   r.mgd_id, r.rgd_id, r.lsdb, r.cosmic, r.omim_id, r.mirbase, r.homeodb,
   r.snornabase, r.bioparadigms_slc, r.orphanet, r.pseudogene_org,
   r.horde_id, r.merops, r.imgt, r.iuphar, r.kznf_gene_catalog,
   r.mamit_trnadb, r.cd, r.lncrnadb, r.enzyme_id,
   r.intermediate_filament_db, r.rna_central_id, r.lncipedia, r.gtrnadb,
   r.agr, r.mane_select, r.gencc]

/-- Rebuild a record from its 54 field strings. -/
def recordOfFields (l : List Str) : HgncRecord where
  hgnc_id := l.getD 0 []
  symbol := l.getD 1 []
  name := l.getD 2 []
  locus_group := l.getD 3 []
  locus_type := l.getD 4 []
  status := l.getD 5 []
  location := l.getD 6 []
  location_sortable := l.getD 7 []
  alias_symbol := l.getD 8 []
  alias_name := l.getD 9 []
  prev_symbol := l.getD 10 []
  prev_name := l.getD 11 []
  gene_group := l.getD 12 []
  gene_group_id := l.getD 13 []
  date_approved_reserved := l.getD 14 []
  date_symbol_changed := l.getD 15 []
  date_name_changed := l.getD 16 []
  date_modified := l.getD 17 []
  entrez_id := l.getD 18 []
  ensembl_gene_id := l.getD 19 []
  vega_id := l.getD 20 []
  ucsc_id := l.getD 21 []
  ena := l.getD 22 []
  refseq_accession := l.getD 23 []
  ccds_id := l.getD 24 []
  uniprot_ids := l.getD 25 []
  pubmed_id := l.getD 26 []
  mgd_id := l.getD 27 []
  rgd_id := l.getD 28 []
  lsdb := l.getD 29 []
  cosmic := l.getD 30 []
  omim_id := l.getD 31 []
  mirbase := l.getD 32 []
  homeodb := l.getD 33 []
  snornabase := l.getD 34 []
  bioparadigms_slc := l.getD 35 []
  orphanet := l.getD 36 []
  pseudogene_org := l.getD 37 []
  horde_id := l.getD 38 []
  merops := l.getD 39 []
  imgt := l.getD 40 []
  iuphar := l.getD 41 []
  kznf_gene_catalog := l.getD 42 []
  mamit_trnadb := l.getD 43 []
  cd := l.getD 44 []
  lncrnadb := l.getD 45 []
  enzyme_id := l.getD 46 []
  intermediate_filament_db := l.getD 47 []
  rna_central_id := l.getD 48 []
  lncipedia := l.getD 49 []
  gtrnadb := l.getD 50 []
  agr := l.getD 51 []
  mane_select := l.getD 52 []
  gencc := l.getD 53 []

/-- Record encoding: its fields, each length-prefixed. -/
def encodeRecord (r : HgncRecord) : List Nat :=
  (recordFields r).flatMap encodeStr

/-- Decode one record (54 strings). -/
def decodeRecord (bs : List Nat) : Option (HgncRecord × List Nat) :=
  match decodeStrs 54 bs with
  | none => none
  | some (l, rest) => some (recordOfFields l, rest)

/-- Decode a fixed number of records. -/
def decodeRecords : Nat → List Nat → Option (List HgncRecord × List Nat)
  | 0, bs => some ([], bs)
  | k + 1, bs =>
    match decodeRecord bs with
    | none => none
    | some (r, rest) =>
      match decodeRecords k rest with
      | none => none
      | some (rs, rest2) => some (r :: rs, rest2)

/-- Index-entry encoding: key then value. -/
def encodeEntry (p : Str × Nat) : List Nat := encodeStr p.1 ++ [p.2]

/-- Decode one index entry. -/
def decodeEntry (bs : List Nat) : Option ((Str × Nat) × List Nat) :=
  match decodeStr bs with
  | none => none
  | some (k, rest) =>
    match rest with
    | [] => none
    | v :: rest2 => some ((k, v), rest2)

/-- Decode a fixed number of index entries. -/
def decodeEntries : Nat → List Nat → Option (LookupMap × List Nat)
  | 0, bs => some ([], bs)
  | k + 1, bs =>
    match decodeEntry bs with
    | none => none
    | some (e, rest) =>
      match decodeEntries k rest with
      | none => none
      | some (es, rest2) => some (e :: es, rest2)

/-- `rkyv::to_bytes` (modelled from the spec): layout markers, then the
record sequence in order, then every index entry. -/
def serializeCache (c : HgncCache) : List Nat :=
  MAGIC ++
    c.records.length :: (c.records.flatMap encodeRecord ++
      c.lookup.length :: c.lookup.flatMap encodeEntry)

/-- `rkyv::access` validation (modelled from the spec): succeeds exactly on
blobs whose layout markers and structure match; `none` signals a corrupt
archive. -/
def deserializeCache : List Nat → Option HgncCache
  | 72 :: 71 :: 78 :: 67 :: 1 :: n :: rest =>
    match decodeRecords n rest with
    | none => none
    | some (rs, rest2) =>
      match rest2 with
      | [] => none
      | m :: rest3 =>
        match decodeEntries m rest3 with
        | none => none
        | some (es, rest4) =>
          if rest4 = [] then some { records := rs, lookup := es } else none
  | _ => none

/-- `dump_hgnc_cache`: serialize (the in-memory container always
serializes; the subsequent `fs::write` is outside the model). -/
def dump_hgnc_cache (cache : HgncCache) : List Nat := serializeCache cache

/-- Outcome of `load_hgnc_cache`: a loaded view, a propagated I/O error
(`Box<dyn Error>`), or a process abort. -/
inductive LoadResult
  | ok (c : HgncCache)
  | ioErr (e : Str)
  | panic
deriving DecidableEq, Repr

/-- `load_hgnc_cache`: read the file (`std::fs::read(input_path)?`
propagates an I/O error), then `rkyv::access::<…>(bytes).unwrap()` — on a
blob that fails validation the `unwrap` panics, aborting the process. -/
def load_hgnc_cache (bytesRead : Except Str (List Nat)) : LoadResult :=
  match bytesRead with
  | .error e => .ioErr e
  | .ok bytes =>
    match deserializeCache bytes with
    | some c => .ok c
    | none => .panic

/-- An invariant of intermediate caches, carried through the data-line
loop: index values are in bounds, index keys are uppercase-normalized. -/
def CacheInv (cache : HgncCache) : Prop :=
  ∀ k v, mapGet cache.lookup k = some v → v < cache.records.length ∧ upper k = k

/-- Last-write-wins, as an invariant: when position `j` contributes key `k`
and no later position does, the index resolves `k` to `j`. -/
def LastInv (cache : HgncCache) : Prop :=
  ∀ k j rj, cache.records[j]? = some rj → k ∈ keysOfRecord rj →
    (∀ l rl, j < l → cache.records[l]? = some rl → k ∉ keysOfRecord rl) →
    mapGet cache.lookup k = some j

/-! ## Claim-side description of the index keys, and sample inputs -/

/-- The key set §4.2 describes for one multi-valued field: `uppercase(segment)`
for each pipe-delimited, whitespace-trimmed, non-empty segment.  (This
definition follows the specification's words, for comparison with the
code-derived `aliasKeys`/`prevKeys`; note the differing order of the
trimming and the non-emptiness filter.) -/
def claimedSegmentKeys (field : Str) : List Str :=
  (((split '|' field).map trim).filter (fun s => s ≠ [])).map upper

/-- All keys §4.2 says one record inserts. -/
def claimedRecordKeys (r : HgncRecord) : List Str :=
  upper r.symbol :: (claimedSegmentKeys r.alias_symbol ++ claimedSegmentKeys r.prev_symbol)

/-- The spec §8 scenario input. -/
def scenarioInput : List (Except Str Str) :=
  [.ok (str "hgnc_id\tsymbol\tname\talias_symbol\tprev_symbol"),
   .ok (str "HGNC:1\tA1BG\tAlpha-1-B glycoprotein\t\t")]

/-- The cache built from the scenario input. -/
def scenarioCache : HgncCache :=
  match create_hgnc_cache_from_reader scenarioInput with
  | .ok c => c
  | .error _ => { records := [], lookup := [] }

/-- The single record of the scenario cache, as the parser constructs it. -/
def scenarioRecord : HgncRecord :=
  mkRecord (buildColMap (split '\t' (str "hgnc_id\tsymbol\tname\talias_symbol\tprev_symbol")))
    (split '\t' (str "HGNC:1\tA1BG\tAlpha-1-B glycoprotein\t\t"))

/-- The record of the whitespace-alias row, as the parser constructs it. -/
def wsAliasRecord : HgncRecord :=
  mkRecord (buildColMap (split '\t' (str "symbol\talias_symbol")))
    (split '\t' (str "X\t "))

/-- A row whose alias field is a single whitespace-only segment. -/
def wsAliasInput : List (Except Str Str) :=
  [.ok (str "symbol\talias_symbol"), .ok (str "X\t ")]

/-- The cache built from `wsAliasInput`. -/
def wsAliasCache : HgncCache :=
  match create_hgnc_cache_from_reader wsAliasInput with
  | .ok c => c
  | .error _ => { records := [], lookup := [] }

/-- A row with alias field `"ABC|DEF"`. -/
def abcDefInput : List (Except Str Str) :=
  [.ok (str "symbol\talias_symbol"), .ok (str "GENE1\tABC|DEF")]

/-- The cache built from `abcDefInput`. -/
def abcDefCache : HgncCache :=
  match create_hgnc_cache_from_reader abcDefInput with
  | .ok c => c
  | .error _ => { records := [], lookup := [] }

/-- Two rows whose symbols normalize to the same key `DUP`. -/
def dupInput : List (Except Str Str) :=
  [.ok (str "symbol"), .ok (str "DUP"), .ok (str "dup")]

/-- The cache built from `dupInput`. -/
def dupCache : HgncCache :=
  match create_hgnc_cache_from_reader dupInput with
  | .ok c => c
  | .error _ => { records := [], lookup := [] }

/-- Rows with empty symbol fields, one of them a completely empty line. -/
def emptySymInput : List (Except Str Str) :=
  [.ok (str "symbol\tname"), .ok (str "\tfoo"), .ok (str ""), .ok (str "X\tz")]

/-- The cache built from `emptySymInput`. -/
def emptySymCache : HgncCache :=
  match create_hgnc_cache_from_reader emptySymInput with
  | .ok c => c
  | .error _ => { records := [], lookup := [] }

/-! ## Helper lemmas: case conversion -/

theorem toNat_ofNat_lt {n : Nat} (h : n < 55296) : (Char.ofNat n).toNat = n := by
  have hv : n.isValidChar := Or.inl h
  rw [Char.ofNat, dif_pos hv]
  rfl

theorem toUpper_eq (c : Char) :
    c.toUpper = if c.toNat ≥ 97 ∧ c.toNat ≤ 122 then Char.ofNat (c.toNat - 32) else c := rfl

theorem toLower_eq (c : Char) :
    c.toLower = if c.toNat ≥ 65 ∧ c.toNat ≤ 90 then Char.ofNat (c.toNat + 32) else c := rfl

theorem charUpper_idem (c : Char) : c.toUpper.toUpper = c.toUpper := by
  by_cases h : c.toNat ≥ 97 ∧ c.toNat ≤ 122
  · rw [toUpper_eq c, if_pos h, toUpper_eq, toNat_ofNat_lt (by omega), if_neg (by omega)]
  · rw [toUpper_eq c, if_neg h, toUpper_eq, if_neg h]

theorem charUpper_toLower (c : Char) : c.toLower.toUpper = c.toUpper := by
  by_cases h : c.toNat ≥ 65 ∧ c.toNat ≤ 90
  · rw [toLower_eq, if_pos h, toUpper_eq, toNat_ofNat_lt (by omega), if_pos (by omega),
      toUpper_eq c, if_neg (by omega)]
    have h2 : c.toNat + 32 - 32 = c.toNat := by omega
    rw [h2, Char.ofNat_toNat]
  · rw [toLower_eq, if_neg h]

theorem upper_idem (s : Str) : upper (upper s) = upper s := by
  induction s with
  | nil => rfl
  | cons c cs ih =>
    simp only [upper, List.map_cons] at *
    rw [charUpper_idem]
    exact congrArg _ ih

theorem upper_lower (s : Str) : upper (lower s) = upper s := by
  induction s with
  | nil => rfl
  | cons c cs ih =>
    simp only [upper, lower, List.map_cons] at *
    rw [charUpper_toLower]
    exact congrArg _ ih

/-! ## Helper lemmas: the map model -/

theorem mapGet_insert (m : LookupMap) (k : Str) (v : Nat) (q : Str) :
    mapGet (mapInsert m k v) q = if k = q then some v else mapGet m q := rfl

theorem mapGet_insertMany (ks : List Str) (m : LookupMap) (v : Nat) (q : Str) :
    mapGet (insertMany m ks v) q = if q ∈ ks then some v else mapGet m q := by
  induction ks generalizing m with
  | nil => simp [insertMany]
  | cons k ks ih =>
    show mapGet (insertMany (mapInsert m k v) ks v) q = _
    rw [ih]
    by_cases hq : q ∈ ks
    · simp [hq]
    · rw [if_neg hq, mapGet_insert]
      by_cases hk : k = q
      · subst hk
        simp
      · rw [if_neg hk, if_neg (by simp [hk, hq, Ne.symm])]

/-! ## Helper lemmas: the index build -/

/-- Every key a record contributes to the index is uppercase-normalized. -/
theorem keysOfRecord_normalized (r : HgncRecord) (k : Str) (hk : k ∈ keysOfRecord r) :
    upper k = k := by
  have of_upper : ∀ s : Str, k = upper s → upper k = k := by
    intro s hs
    rw [hs, upper_idem]
  rcases List.mem_cons.mp hk with h | h
  · exact of_upper _ h
  rcases List.mem_append.mp h with h | h
  · unfold aliasKeys at h
    split at h
    · simp at h
    · obtain ⟨a, _, ha⟩ := List.mem_map.mp h
      exact of_upper _ ha.symm
  · unfold prevKeys at h
    split at h
    · simp at h
    · obtain ⟨a, _, ha⟩ := List.mem_map.mp h
      exact of_upper _ ha.symm

theorem processLine_records (colMap : LookupMap) (line : Str) (cache : HgncCache) :
    (processLine colMap line cache).records =
      cache.records ++ [mkRecord colMap (split '\t' line)] := rfl

theorem processLine_lookup (colMap : LookupMap) (line : Str) (cache : HgncCache) (q : Str) :
    mapGet (processLine colMap line cache).lookup q =
      if q ∈ keysOfRecord (mkRecord colMap (split '\t' line)) then some cache.records.length
      else mapGet cache.lookup q :=
  mapGet_insertMany _ _ _ _

theorem processLine_inv (colMap : LookupMap) (line : Str) (cache : HgncCache)
    (h : CacheInv cache) : CacheInv (processLine colMap line cache) := by
  intro k v hget
  rw [processLine_lookup] at hget
  rw [processLine_records, List.length_append, List.length_singleton]
  split at hget
  · rename_i hmem
    cases hget
    exact ⟨by omega, keysOfRecord_normalized _ _ hmem⟩
  · obtain ⟨hb, hn⟩ := h k v hget
    exact ⟨by omega, hn⟩

theorem processLines_inv (colMap : LookupMap) (rest : List (Except Str Str)) :
    ∀ cache cache', processLines colMap rest cache = .ok cache' →
      CacheInv cache → CacheInv cache' := by
  induction rest with
  | nil =>
    intro cache cache' h hinv
    cases h
    exact hinv
  | cons l rest ih =>
    intro cache cache' h hinv
    match l with
    | .error e => exact absurd h (by simp [processLines])
    | .ok line => exact ih _ _ h (processLine_inv _ _ _ hinv)

/-- The parser's output caches satisfy the invariant. -/
theorem create_inv (input : List (Except Str Str)) (cache : HgncCache)
    (h : create_hgnc_cache_from_reader input = .ok cache) : CacheInv cache := by
  match input with
  | [] => exact absurd h (by simp [create_hgnc_cache_from_reader])
  | .error e :: rest => exact absurd h (by simp [create_hgnc_cache_from_reader])
  | .ok headerLine :: rest =>
    exact processLines_inv _ rest _ _ h (by intro k v hkv; cases hkv)

theorem processLine_lastInv (colMap : LookupMap) (line : Str) (cache : HgncCache)
    (h : LastInv cache) : LastInv (processLine colMap line cache) := by
  intro k j rj h1 h2 h3
  rw [processLine_records] at h1 h3
  rw [processLine_lookup]
  set r := mkRecord colMap (split '\t' line) with hr
  set n := cache.records.length with hn
  have hj : j < n + 1 := by
    have := List.getElem?_eq_some_iff.mp h1
    simpa using this.1
  by_cases hcase : j = n
  · subst hcase
    have hrj : rj = r := by
      rw [List.getElem?_append_right (Nat.le_refl _)] at h1
      simp at h1
      exact h1.symm
    rw [if_pos (hrj ▸ h2)]
  · have hjn : j < n := by omega
    have h1' : cache.records[j]? = some rj := by
      rw [List.getElem?_append, if_pos hjn] at h1
      exact h1
    have hlast : k ∉ keysOfRecord r := by
      apply h3 n r hjn
      rw [List.getElem?_append_right (Nat.le_refl _)]
      simp
    rw [if_neg hlast]
    apply h k j rj h1' h2
    intro l rl hl hrl
    apply h3 l rl hl
    have hln : l < n := by
      have := List.getElem?_eq_some_iff.mp hrl
      simpa using this.1
    rw [List.getElem?_append, if_pos hln]
    exact hrl

theorem processLines_lastInv (colMap : LookupMap) (rest : List (Except Str Str)) :
    ∀ cache cache', processLines colMap rest cache = .ok cache' →
      LastInv cache → LastInv cache' := by
  induction rest with
  | nil =>
    intro cache cache' h hinv
    cases h
    exact hinv
  | cons l rest ih =>
    intro cache cache' h hinv
    match l with
    | .error e => exact absurd h (by simp [processLines])
    | .ok line => exact ih _ _ h (processLine_lastInv _ _ _ hinv)

theorem create_lastInv (input : List (Except Str Str)) (cache : HgncCache)
    (h : create_hgnc_cache_from_reader input = .ok cache) : LastInv cache := by
  match input with
  | [] => exact absurd h (by simp [create_hgnc_cache_from_reader])
  | .error e :: rest => exact absurd h (by simp [create_hgnc_cache_from_reader])
  | .ok headerLine :: rest =>
    refine processLines_lastInv _ rest _ _ h ?_
    intro k j rj h1 _ _
    simp at h1

/-! ## Helper lemmas: success and failure of the parser -/

theorem processLines_length (colMap : LookupMap) (rest : List (Except Str Str)) :
    ∀ cache cache', processLines colMap rest cache = .ok cache' →
      cache'.records.length = cache.records.length + rest.length := by
  induction rest with
  | nil =>
    intro cache cache' h
    cases h
    simp
  | cons l rest ih =>
    intro cache cache' h
    match l with
    | .error e => exact absurd h (by simp [processLines])
    | .ok line =>
      have := ih _ _ h
      rw [this, processLine_records]
      simp
      try omega

theorem processLines_ok_iff (colMap : LookupMap) (rest : List (Except Str Str)) :
    ∀ cache, (∃ c', processLines colMap rest cache = .ok c') ↔
      ∀ l ∈ rest, ∃ s, l = .ok s := by
  induction rest with
  | nil =>
    intro cache
    simp [processLines]
  | cons l rest ih =>
    intro cache
    match l with
    | .error e =>
      constructor
      · intro hc
        obtain ⟨c', hc⟩ := hc
        exact absurd hc (by simp [processLines])
      · intro h
        obtain ⟨s, hs⟩ := h (.error e) (by simp)
        cases hs
    | .ok line =>
      constructor
      · intro h l' hl'
        rcases List.mem_cons.mp hl' with h' | h'
        · exact ⟨line, h'⟩
        · exact ((ih _).mp h) l' h'
      · intro h
        exact (ih _).mpr (fun l' hl' => h l' (List.mem_cons_of_mem _ hl'))

/-! ## Helper lemmas: codec round-trip -/

theorem decodeStr_encode (s : Str) (rest : List Nat) :
    decodeStr (encodeStr s ++ rest) = some (s, rest) := by
  show (if s.length ≤ (s.map Char.toNat ++ rest).length
      then some ((((s.map Char.toNat ++ rest)).take s.length).map Char.ofNat,
        ((s.map Char.toNat ++ rest)).drop s.length)
      else none) = some (s, rest)
  rw [if_pos (by simp)]
  have hlen : s.length = (s.map Char.toNat).length := by simp
  rw [hlen, List.take_left, List.drop_left, List.map_map]
  have hid : (Char.ofNat ∘ Char.toNat) = id := funext (fun c => Char.ofNat_toNat c)
  rw [hid, List.map_id]

theorem decodeStrs_encode (ss : List Str) (rest : List Nat) :
    decodeStrs ss.length (ss.flatMap encodeStr ++ rest) = some (ss, rest) := by
  induction ss generalizing rest with
  | nil => rfl
  | cons s ss ih =>
    show decodeStrs (ss.length + 1) ((encodeStr s ++ ss.flatMap encodeStr) ++ rest) = _
    rw [List.append_assoc]
    unfold decodeStrs
    simp only [decodeStr_encode, ih]

theorem recordOfFields_recordFields (r : HgncRecord) :
    recordOfFields (recordFields r) = r := rfl

theorem decodeRecord_encode (r : HgncRecord) (rest : List Nat) :
    decodeRecord (encodeRecord r ++ rest) = some (r, rest) := by
  unfold decodeRecord encodeRecord
  have h54 : (54 : Nat) = (recordFields r).length := rfl
  rw [h54]
  simp only [decodeStrs_encode, recordOfFields_recordFields]

theorem decodeRecords_encode (rs : List HgncRecord) (rest : List Nat) :
    decodeRecords rs.length (rs.flatMap encodeRecord ++ rest) = some (rs, rest) := by
  induction rs generalizing rest with
  | nil => rfl
  | cons r rs ih =>
    show decodeRecords (rs.length + 1) ((encodeRecord r ++ rs.flatMap encodeRecord) ++ rest) = _
    rw [List.append_assoc]
    unfold decodeRecords
    simp only [decodeRecord_encode, ih]

theorem decodeEntry_encode (p : Str × Nat) (rest : List Nat) :
    decodeEntry (encodeEntry p ++ rest) = some (p, rest) := by
  unfold decodeEntry encodeEntry
  rw [List.append_assoc]
  simp only [decodeStr_encode, List.singleton_append]

theorem decodeEntries_encode (es : LookupMap) (rest : List Nat) :
    decodeEntries es.length (es.flatMap encodeEntry ++ rest) = some (es, rest) := by
  induction es generalizing rest with
  | nil => rfl
  | cons e es ih =>
    show decodeEntries (es.length + 1) ((encodeEntry e ++ es.flatMap encodeEntry) ++ rest) = _
    rw [List.append_assoc]
    unfold decodeEntries
    simp only [decodeEntry_encode, ih]

theorem deserialize_serialize (c : HgncCache) :
    deserializeCache (serializeCache c) = some c := by
  show deserializeCache
    (72 :: 71 :: 78 :: 67 :: 1 :: c.records.length ::
      (c.records.flatMap encodeRecord ++
        c.lookup.length :: c.lookup.flatMap encodeEntry)) = some c
  have h : c.lookup.flatMap encodeEntry = c.lookup.flatMap encodeEntry ++ [] := by simp
  unfold deserializeCache
  simp only [decodeRecords_encode]
  rw [h]
  simp only [decodeEntries_encode]
  rfl

/-! ## Helper lemmas: query engine and field access -/

theorem query_eq_found {cache : HgncCache} {q : Str} {v : Nat} {r : HgncRecord}
    (h1 : mapGet cache.lookup (upper q) = some v)
    (h2 : cache.records[v]? = some r) :
    query_lookup_table q cache = .found r := by
  unfold query_lookup_table
  rw [h1]
  show (match cache.records[v]? with
    | some r => QueryResult.found r
    | none => QueryResult.panic) = QueryResult.found r
  rw [h2]

theorem query_eq_notFound {cache : HgncCache} {q : Str}
    (h : mapGet cache.lookup (upper q) = none) :
    query_lookup_table q cache =
      .notFound (str "Query '" ++ q ++ str "' not found in cache") := by
  unfold query_lookup_table
  rw [h]

theorem aliasKeys_eq (r : HgncRecord) :
    aliasKeys r =
      ((split '|' r.alias_symbol).filter (fun s => s ≠ [])).map (fun a => upper (trim a)) := by
  unfold aliasKeys
  split
  · rename_i h
    rw [h]
    rfl
  · rfl

theorem prevKeys_eq (r : HgncRecord) :
    prevKeys r =
      ((split '|' r.prev_symbol).filter (fun s => s ≠ [])).map (fun p => upper (trim p)) := by
  unfold prevKeys
  split
  · rename_i h
    rw [h]
    rfl
  · rfl

theorem mapGet_foldl_enumFrom (headers : List Str) (name : Str) (h : name ∉ headers) :
    ∀ (i : Nat) (m : LookupMap),
      mapGet ((headers.enumFrom i).foldl (fun m p => mapInsert m p.2 p.1) m) name =
        mapGet m name := by
  induction headers with
  | nil => intro i m; rfl
  | cons a t ih =>
    intro i m
    have hna : name ≠ a := fun he => h (he ▸ List.mem_cons_self a t)
    have ht : name ∉ t := fun hmem => h (List.mem_cons_of_mem _ hmem)
    show mapGet ((t.enumFrom (i + 1)).foldl (fun m p => mapInsert m p.2 p.1)
      (mapInsert m a i)) name = mapGet m name
    rw [ih ht, mapGet_insert, if_neg (Ne.symm hna)]

theorem buildColMap_not_mem (headers : List Str) (name : Str) (h : name ∉ headers) :
    mapGet (buildColMap headers) name = none :=
  mapGet_foldl_enumFrom headers name h 0 []

theorem getField_of_absent (colMap : LookupMap) (fields : List Str) (name : Str)
    (h : mapGet colMap name = none) : getField colMap fields name = [] := by
  unfold getField
  rw [h]

theorem getField_of_short_row (colMap : LookupMap) (fields : List Str) (name : Str)
    (idx : Nat) (hidx : mapGet colMap name = some idx) (hlen : fields.length ≤ idx) :
    getField colMap fields name = [] := by
  unfold getField
  rw [hidx]
  show (fields[idx]?).getD [] = []
  rw [List.getElem?_eq_none hlen]
  rfl

theorem create_ok_of_rows (header : Str) (rows : List Str) :
    ∃ cache,
      create_hgnc_cache_from_reader (.ok header :: rows.map .ok) = .ok cache ∧
      cache.records.length = rows.length := by
  have hmem : ∀ l ∈ rows.map (Except.ok (ε := Str)), ∃ s, l = .ok s := by
    intro l hl
    obtain ⟨x, _, hx⟩ := List.mem_map.mp hl
    exact ⟨x, hx.symm⟩
  obtain ⟨cache, hcache⟩ :=
    (processLines_ok_iff (buildColMap (split '\t' header)) (rows.map .ok)
      { records := [], lookup := [] }).mpr hmem
  refine ⟨cache, hcache, ?_⟩
  have := processLines_length _ _ _ _ hcache
  simpa using this

/-! ## Claims -/

/-- C1: for every cache built by the parser from well-formed input and
every string `s` that is a key of its mapping, `lookup(s)`,
`lookup(lowercase(s))`, and `lookup` of any mixed-case variant of `s`
(any `t` with the same uppercasing) all succeed and return the same
record, because the query is normalized with the same uppercasing rule
used when the index keys were inserted. -/
theorem C1_case_insensitive_lookup (input : List (Except Str Str)) (cache : HgncCache)
    (hc : create_hgnc_cache_from_reader input = .ok cache)
    (s : Str) (v : Nat) (hs : mapGet cache.lookup s = some v) :
    ∃ r, cache.records[v]? = some r ∧
      query_lookup_table s cache = .found r ∧
      query_lookup_table (lower s) cache = .found r ∧
      ∀ t, upper t = upper s → query_lookup_table t cache = .found r := by
  obtain ⟨hb, hn⟩ := create_inv input cache hc s v hs
  have hr : cache.records[v]? = some cache.records[v] := List.getElem?_eq_getElem hb
  refine ⟨cache.records[v], hr, ?_, ?_, ?_⟩
  · exact query_eq_found (by rw [hn]; exact hs) hr
  · refine query_eq_found ?_ hr
    rw [upper_lower, hn]
    exact hs
  · intro t ht
    refine query_eq_found ?_ hr
    rw [ht, hn]
    exact hs

/-- Witness for C1 at the §8 scenario input (key `A1BG` at position 0). -/
theorem C1_case_insensitive_lookup_witness :
    scenarioCache.records[0]? = some scenarioRecord ∧
    query_lookup_table (str "A1BG") scenarioCache = .found scenarioRecord ∧
    query_lookup_table (lower (str "A1BG")) scenarioCache = .found scenarioRecord ∧
    query_lookup_table (str "a1Bg") scenarioCache = .found scenarioRecord := by
  obtain ⟨r, h1, h2, h3, h4⟩ :=
    C1_case_insensitive_lookup scenarioInput scenarioCache rfl (str "A1BG") 0 rfl
  have hr : r = scenarioRecord := by
    have h0 : some r = some scenarioRecord := by
      rw [← h1]
      rfl
    exact Option.some.inj h0
  subst hr
  exact ⟨h1, h2, h3, h4 (str "a1Bg") (by decide)⟩

/-- C3: when two different rows contribute the same normalized key (and no
row after them contributes it), the built cache resolves that key to the
position of the row parsed later — last-write-wins, deterministically. -/
theorem C3_last_write_wins (input : List (Except Str Str)) (cache : HgncCache)
    (hc : create_hgnc_cache_from_reader input = .ok cache)
    (i j : Nat) (ri rj : HgncRecord) (k : Str)
    (hi : cache.records[i]? = some ri) (hj : cache.records[j]? = some rj)
    (hij : i < j)
    (hki : k ∈ keysOfRecord ri) (hkj : k ∈ keysOfRecord rj)
    (hlater : ∀ l rl, j < l → cache.records[l]? = some rl → k ∉ keysOfRecord rl) :
    mapGet cache.lookup k = some j :=
  create_lastInv input cache hc k j rj hj hkj hlater

/-- Witness for C3: two rows whose symbols both normalize to `DUP`; the key
resolves to position 1, the later row. -/
theorem C3_last_write_wins_witness : mapGet dupCache.lookup (str "DUP") = some 1 := by
  refine C3_last_write_wins dupInput dupCache rfl 0 1 _ _ (str "DUP")
    rfl rfl (by omega) (by decide) (by decide) ?_
  intro l rl hl hrl
  have hlen : dupCache.records.length = 2 := rfl
  have hbound := (List.getElem?_eq_some_iff.mp hrl).1
  omega

/-- C5: every parser-built cache satisfies the two container invariants:
each mapping value is a valid position into the record sequence, and each
mapping key is uppercase-normalized. -/
theorem C5_built_cache_invariants (input : List (Except Str Str)) (cache : HgncCache)
    (hc : create_hgnc_cache_from_reader input = .ok cache) (k : Str) (v : Nat)
    (hkv : mapGet cache.lookup k = some v) :
    v < cache.records.length ∧ upper k = k :=
  create_inv input cache hc k v hkv

/-- Witness for C5 at the §8 scenario input. -/
theorem C5_built_cache_invariants_witness :
    0 < scenarioCache.records.length ∧ upper (str "A1BG") = str "A1BG" :=
  C5_built_cache_invariants scenarioInput scenarioCache rfl (str "A1BG") 0 rfl

/-- C2, as stated, is false: the code filters alias segments for
non-emptiness BEFORE trimming, so a whitespace-only segment (non-empty
before trimming, empty after) still causes an insertion — of the empty
key.  Counterexample: a row with alias field `" "` puts the key `""` into
the mapping, although the claim's key set (uppercases of the trimmed,
non-empty segments, plus the symbol key) contains no `""` for any record. -/
theorem C2_alias_insertion_counterexample :
    create_hgnc_cache_from_reader wsAliasInput = .ok wsAliasCache ∧
    wsAliasCache.records = [wsAliasRecord] ∧
    mapGet wsAliasCache.lookup [] = some 0 ∧
    [] ∉ claimedRecordKeys wsAliasRecord :=
  ⟨rfl, rfl, rfl, by decide⟩

/-- C2 amended: for every parsed record at position `p`, the index-build
step inserts `uppercase(trim(segment)) → p` exactly for the pipe-delimited
segments of the alias_symbol field that are non-empty BEFORE trimming
(likewise for prev_symbol, plus the symbol key); in particular, for a
record whose alias_symbol is `"ABC|DEF"` (keys not overwritten later),
`lookup("ABC")` and `lookup("DEF")` both resolve to that record. -/
theorem C2_alias_insertion_amended :
    (∀ r : HgncRecord,
      aliasKeys r =
        ((split '|' r.alias_symbol).filter (fun s => s ≠ [])).map (fun a => upper (trim a)) ∧
      prevKeys r =
        ((split '|' r.prev_symbol).filter (fun s => s ≠ [])).map (fun p => upper (trim p))) ∧
    (∀ (colMap : LookupMap) (line : Str) (cache : HgncCache) (q : Str),
      mapGet (processLine colMap line cache).lookup q =
        if q ∈ keysOfRecord (mkRecord colMap (split '\t' line)) then some cache.records.length
        else mapGet cache.lookup q) ∧
    (∃ r, abcDefCache.records[0]? = some r ∧ r.alias_symbol = str "ABC|DEF" ∧
      query_lookup_table (str "ABC") abcDefCache = .found r ∧
      query_lookup_table (str "DEF") abcDefCache = .found r) :=
  ⟨fun r => ⟨aliasKeys_eq r, prevKeys_eq r⟩,
   processLine_lookup,
   ⟨_, rfl, rfl, by decide, by decide⟩⟩

/-- C4: deserializing the bytes produced by serializing any cache
container yields a view whose record sequence is order-and-content
identical to the original and whose key mapping resolves every key as the
original does; loading such a dump succeeds with the original container. -/
theorem C4_serialization_roundtrip (cache : HgncCache) :
    ∃ c', deserializeCache (dump_hgnc_cache cache) = some c' ∧
      c'.records = cache.records ∧
      c'.lookup = cache.lookup ∧
      (∀ q, mapGet c'.lookup q = mapGet cache.lookup q) ∧
      load_hgnc_cache (.ok (dump_hgnc_cache cache)) = .ok cache := by
  refine ⟨cache, deserialize_serialize cache, rfl, rfl, fun _ => rfl, ?_⟩
  show (match deserializeCache (serializeCache cache) with
    | some c => LoadResult.ok c
    | none => LoadResult.panic) = LoadResult.ok cache
  rw [deserialize_serialize cache]

/-- C6: a field whose column name is absent from the header resolves to
the empty string (its name is not in the column map, and an absent name,
or a header position beyond the row's field count, makes `get_field`
return `""`); the row is still parsed successfully, never failed. -/
theorem C6_missing_column_tolerance :
    (∀ (headers : List Str) (name : Str), name ∉ headers →
      mapGet (buildColMap headers) name = none) ∧
    (∀ (colMap : LookupMap) (fields : List Str) (name : Str),
      mapGet colMap name = none → getField colMap fields name = []) ∧
    (∀ (colMap : LookupMap) (fields : List Str) (name : Str) (idx : Nat),
      mapGet colMap name = some idx → fields.length ≤ idx →
      getField colMap fields name = []) ∧
    (∀ (header : Str) (rows : List Str), ∃ cache,
      create_hgnc_cache_from_reader (.ok header :: rows.map .ok) = .ok cache ∧
      cache.records.length = rows.length) :=
  ⟨buildColMap_not_mem, getField_of_absent, getField_of_short_row, create_ok_of_rows⟩

/-- Witness for C6: a header without the `name` column, a row shorter than
a header position, and a successfully parsed one-row input. -/
theorem C6_missing_column_tolerance_witness :
    mapGet (buildColMap [str "symbol"]) (str "name") = none ∧
    getField [] [str "x"] (str "name") = [] ∧
    getField [(str "name", 5)] [str "x"] (str "name") = [] ∧
    ∃ cache, create_hgnc_cache_from_reader (.ok (str "symbol") :: [str "A"].map .ok) = .ok cache ∧
      cache.records.length = [str "A"].length :=
  ⟨C6_missing_column_tolerance.1 [str "symbol"] (str "name") (by decide),
   C6_missing_column_tolerance.2.1 [] [str "x"] (str "name") rfl,
   C6_missing_column_tolerance.2.2.1 [(str "name", 5)] [str "x"] (str "name") 5 rfl (by decide),
   C6_missing_column_tolerance.2.2.2 (str "symbol") [str "A"]⟩

/-- C7: parsing fails exactly when the input stream is empty (no header
line) or some line read fails at the I/O level; any input free of both
conditions parses successfully. -/
theorem C7_parse_failure_iff (input : List (Except Str Str)) :
    (∃ e, create_hgnc_cache_from_reader input = .error e) ↔
      (input = [] ∨ ∃ e, Except.error e ∈ input) := by
  match input with
  | [] =>
    constructor
    · intro _
      exact Or.inl rfl
    · intro _
      exact ⟨str "File is empty", rfl⟩
  | .error e :: rest =>
    constructor
    · intro _
      exact Or.inr ⟨e, List.mem_cons_self _ _⟩
    · intro _
      exact ⟨e, rfl⟩
  | .ok h :: rest =>
    have hcreate : create_hgnc_cache_from_reader (.ok h :: rest) =
        processLines (buildColMap (split '\t' h)) rest { records := [], lookup := [] } := rfl
    rw [hcreate]
    constructor
    · rintro ⟨e, he⟩
      right
      by_contra hno
      push_neg at hno
      have hall : ∀ l ∈ rest, ∃ s, l = .ok s := by
        intro l hl
        match l with
        | .ok s => exact ⟨s, rfl⟩
        | .error e2 => exact absurd (List.mem_cons_of_mem _ hl) (hno e2)
      obtain ⟨c2, hc2⟩ := (processLines_ok_iff _ _ _).mpr hall
      rw [hc2] at he
      cases he
    · intro hor
      rcases hor with hnil | ⟨e, he⟩
      · exact absurd hnil (by simp)
      · have he2 : Except.error e ∈ rest := by
          rcases List.mem_cons.mp he with h1 | h1
          · cases h1
          · exact h1
        rcases hE : processLines (buildColMap (split '\t' h)) rest
            { records := [], lookup := [] } with e2 | c2
        · exact ⟨e2, rfl⟩
        · obtain ⟨s2, hs2⟩ := (processLines_ok_iff _ _ _).mp ⟨c2, hE⟩ _ he2
          cases hs2

/-- C8 (the code, not the claim): on a byte blob whose layout markers do
not match (truncation, or a wrong version marker), deserialization
reports corruption, but `load_hgnc_cache` `.unwrap()`s that result: it
panics — aborting the process — instead of returning the error to the
caller as the claim states. -/
theorem C8_load_corrupt_panics :
    deserializeCache [] = none ∧
    load_hgnc_cache (.ok []) = .panic ∧
    deserializeCache [72, 71, 78, 67, 2] = none ∧
    load_hgnc_cache (.ok [72, 71, 78, 67, 2]) = .panic ∧
    (∀ e, load_hgnc_cache (.ok []) ≠ .ioErr e) ∧
    (∀ c, load_hgnc_cache (.ok []) ≠ .ok c) := by
  refine ⟨rfl, rfl, rfl, rfl, ?_, ?_⟩
  · intro e h
    cases h
  · intro c h
    cases h

/-- C9: when `uppercase(q)` is not a key, lookup fails with a not-found
message that carries the original, non-normalized query string; since
query-time normalization is uppercasing only (no trimming), the trailing
whitespace query `"A1BG "` misses the key `A1BG` of the §8 scenario
cache, while `"a1bg"` hits it. -/
theorem C9_not_found_echoes_query (cache : HgncCache) (q : Str)
    (h : mapGet cache.lookup (upper q) = none) :
    (query_lookup_table q cache =
      .notFound (str "Query '" ++ q ++ str "' not found in cache") ∧
     ∃ pre post,
       str "Query '" ++ q ++ str "' not found in cache" = pre ++ q ++ post) ∧
    (∃ r, query_lookup_table (str "a1bg") scenarioCache = .found r) ∧
    query_lookup_table (str "A1BG ") scenarioCache =
      .notFound (str "Query 'A1BG ' not found in cache") := by
  refine ⟨⟨query_eq_notFound h,
    ⟨str "Query '", str "' not found in cache", rfl⟩⟩, ⟨_, rfl⟩, ?_⟩
  exact query_eq_notFound (by decide)

/-- Witness for C9 at a key absent from the scenario cache. -/
theorem C9_not_found_echoes_query_witness :
    query_lookup_table (str "NONEXISTENT_SYMBOL_X") scenarioCache =
      .notFound (str "Query '" ++ str "NONEXISTENT_SYMBOL_X" ++ str "' not found in cache") ∧
    query_lookup_table (str "A1BG ") scenarioCache =
      .notFound (str "Query 'A1BG ' not found in cache") := by
  obtain ⟨⟨h1, _⟩, _, h3⟩ :=
    C9_not_found_echoes_query scenarioCache (str "NONEXISTENT_SYMBOL_X") (by decide)
  exact ⟨h1, h3⟩

/-- C10: every data line after the header — a completely empty line
included — produces exactly one record, and the uppercased primary symbol
is inserted unconditionally, so after parsing rows with empty symbol
fields, `""` is a key and `lookup("")` resolves to the last such row's
record. -/
theorem C10_empty_symbol_rows :
    (∀ (header : Str) (rows : List Str) (cache : HgncCache),
      create_hgnc_cache_from_reader (.ok header :: rows.map .ok) = .ok cache →
      cache.records.length = rows.length) ∧
    (∀ r : HgncRecord, upper r.symbol ∈ keysOfRecord r) ∧
    (create_hgnc_cache_from_reader emptySymInput = .ok emptySymCache ∧
      emptySymCache.records.length = 3 ∧
      mapGet emptySymCache.lookup [] = some 1 ∧
      ∃ r, emptySymCache.records[1]? = some r ∧ r.symbol = [] ∧
        query_lookup_table [] emptySymCache = .found r) := by
  refine ⟨?_, fun r => List.mem_cons_self _ _, rfl, rfl, rfl, ⟨_, rfl, rfl, rfl⟩⟩
  intro header rows cache hc
  have hc2 : processLines (buildColMap (split '\t' header)) (rows.map .ok)
      { records := [], lookup := [] } = .ok cache := hc
  have := processLines_length _ _ _ _ hc2
  simpa using this

/-- Witness for C10: the three data rows of `emptySymInput` yield three
records. -/
theorem C10_empty_symbol_rows_witness :
    emptySymCache.records.length = ([str "\tfoo", str "", str "X\tz"] : List Str).length :=
  C10_empty_symbol_rows.1 (str "symbol\tname") [str "\tfoo", str "", str "X\tz"]
    emptySymCache rfl

end HgncLookup
